import Mathlib

/-!
Verification development for the sourcepawn-lexer repository.

The data model and the stateful scanner are embedded shallowly from
`src/lexer.rs` and `src/token_kind.rs`.  Source text is modelled as
`List Char` and byte offsets as `Nat` (the inputs considered are ASCII, where
byte offsets and character offsets coincide).  The raw pattern matcher
(`src/token.rs`, the logos-generated scanner) is not part of the sources; it
is treated as an external leaf component: theorems quantify over arbitrary
raw token streams, with a validity predicate modelled from the spec where a
claim needs the matcher contract.
-/

namespace SpLexer

/-- Token categories produced by the raw matcher, from the `Token` enum
(every variant is enumerated by `TryFrom<Token> for TokenKind` in
`src/token_kind.rs`). -/
inductive Token where
  | Identifier
  | IntegerLiteral
  | HexLiteral
  | BinaryLiteral
  | OctodecimalLiteral
  | StringLiteral
  | CharLiteral
  | FloatLiteral
  | Newline
  | LineContinuation
  | LineComment
  | BlockComment
  | Bool
  | Break
  | Case
  | Char
  | Class
  | Const
  | Continue
  | Decl
  | Default
  | Defined
  | Delete
  | Do
  | Else
  | Enum
  | False
  | Float
  | OldFloat
  | OldString
  | For
  | Forward
  | Functag
  | Function
  | If
  | Int
  | InvalidFunction
  | Methodmap
  | Native
  | Null
  | New
  | Object
  | Property
  | Public
  | Return
  | Sizeof
  | Static
  | Stock
  | Struct
  | Switch
  | This
  | True
  | Typedef
  | Typeset
  | Union
  | Using
  | ViewAs
  | Void
  | While
  | Nullable
  | MDefine
  | MDeprecate
  | MElse
  | MElseif
  | MEndif
  | MEndinput
  | MFile
  | MIf
  | MInclude
  | MLeaving
  | MLine
  | MOptionalNewdecls
  | MOptionalSemi
  | MPragma
  | MRequireNewdecls
  | MRequireSemi
  | MTryinclude
  | MUndef
  | Intrinsics
  | Ellipses
  | Plus
  | Minus
  | Star
  | Slash
  | Stringize
  | Percent
  | Ampersand
  | Bitor
  | Bitxor
  | Shr
  | Ushr
  | Shl
  | Assign
  | Semicolon
  | LBrace
  | RBrace
  | LParen
  | RParen
  | LBracket
  | RBracket
  | AssignAdd
  | AssignSub
  | AssignMul
  | AssignDiv
  | AssignMod
  | AssignBitAnd
  | AssignBitOr
  | AssignBitXor
  | AssignShr
  | AssignUshl
  | AssignShl
  | Increment
  | Decrement
  | Equals
  | NotEquals
  | Lt
  | Le
  | Gt
  | Ge
  | And
  | Or
  | Comma
  | Not
  | Tilde
  | Qmark
  | Colon
  | Scope
  | Dot
  | Underscore
  | Unknown
  deriving DecidableEq, Repr, Fintype, Inhabited

/-- `Literal` enum from `src/token_kind.rs`. -/
inductive Literal where
  | IntegerLiteral
  | HexLiteral
  | BinaryLiteral
  | OctodecimalLiteral
  | StringLiteral
  | CharLiteral
  | FloatLiteral
  deriving DecidableEq, Repr, Fintype, Inhabited

/-- `Comment` enum from `src/token_kind.rs`. -/
inductive Comment where
  | LineComment
  | BlockComment
  deriving DecidableEq, Repr, Fintype, Inhabited

/-- `Operator` enum from `src/token_kind.rs`. -/
inductive Operator where
  | Ellipses
  | Plus
  | Minus
  | Star
  | Slash
  | Stringize
  | Percent
  | Ampersand
  | Bitor
  | Bitxor
  | Shr
  | Ushr
  | Shl
  | Assign
  | AssignAdd
  | AssignSub
  | AssignMul
  | AssignDiv
  | AssignMod
  | AssignBitAnd
  | AssignBitOr
  | AssignBitXor
  | AssignShr
  | AssignUshl
  | AssignShl
  | Increment
  | Decrement
  | Equals
  | NotEquals
  | Lt
  | Le
  | Gt
  | Ge
  | And
  | Or
  | Not
  | Tilde
  deriving DecidableEq, Repr, Fintype, Inhabited

/-- `PreprocDir` enum from `src/token_kind.rs`. -/
inductive PreprocDir where
  | MDefine
  | MDeprecate
  | MElse
  | MElseif
  | MEndif
  | MEndinput
  | MFile
  | MIf
  | MInclude
  | MLeaving
  | MLine
  | MOptionalNewdecls
  | MOptionalSemi
  | MPragma
  | MRequireNewdecls
  | MRequireSemi
  | MTryinclude
  | MUndef
  deriving DecidableEq, Repr, Fintype, Inhabited

/-- `TokenKind` enum from `src/token_kind.rs`. -/
inductive TokenKind where
  | Identifier
  | Literal (lit : Literal)
  | Comment (com : Comment)
  | Operator (op : Operator)
  | PreprocDir (dir : PreprocDir)
  | Newline
  | LineContinuation
  | Bool
  | Break
  | Case
  | Char
  | Class
  | Const
  | Continue
  | Decl
  | Default
  | Defined
  | Delete
  | Do
  | Else
  | Enum
  | False
  | Float
  | OldFloat
  | OldString
  | For
  | Forward
  | Functag
  | Function
  | If
  | Int
  | InvalidFunction
  | Methodmap
  | Native
  | Null
  | New
  | Object
  | Property
  | Public
  | Return
  | Sizeof
  | Static
  | Stock
  | Struct
  | Switch
  | This
  | True
  | Typedef
  | Typeset
  | Union
  | Using
  | ViewAs
  | Void
  | While
  | Nullable
  | Intrinsics
  | Semicolon
  | LBrace
  | RBrace
  | LParen
  | RParen
  | LBracket
  | RBracket
  | Comma
  | Qmark
  | Colon
  | Scope
  | Dot
  | Underscore
  | Unknown
  | Eof
  deriving Repr, Inhabited

/-- Numeric code for a `Literal`, used to decide equality of token kinds. -/
def Literal.tag : Literal → Nat
  | .IntegerLiteral => 0
  | .HexLiteral => 1
  | .BinaryLiteral => 2
  | .OctodecimalLiteral => 3
  | .StringLiteral => 4
  | .CharLiteral => 5
  | .FloatLiteral => 6

/-- Numeric code for a `Comment`. -/
def Comment.tag : Comment → Nat
  | .LineComment => 0
  | .BlockComment => 1

/-- Numeric code for an `Operator`. -/
def Operator.tag : Operator → Nat
  | .Ellipses => 0
  | .Plus => 1
  | .Minus => 2
  | .Star => 3
  | .Slash => 4
  | .Stringize => 5
  | .Percent => 6
  | .Ampersand => 7
  | .Bitor => 8
  | .Bitxor => 9
  | .Shr => 10
  | .Ushr => 11
  | .Shl => 12
  | .Assign => 13
  | .AssignAdd => 14
  | .AssignSub => 15
  | .AssignMul => 16
  | .AssignDiv => 17
  | .AssignMod => 18
  | .AssignBitAnd => 19
  | .AssignBitOr => 20
  | .AssignBitXor => 21
  | .AssignShr => 22
  | .AssignUshl => 23
  | .AssignShl => 24
  | .Increment => 25
  | .Decrement => 26
  | .Equals => 27
  | .NotEquals => 28
  | .Lt => 29
  | .Le => 30
  | .Gt => 31
  | .Ge => 32
  | .And => 33
  | .Or => 34
  | .Not => 35
  | .Tilde => 36

/-- Numeric code for a `PreprocDir`. -/
def PreprocDir.tag : PreprocDir → Nat
  | .MDefine => 0
  | .MDeprecate => 1
  | .MElse => 2
  | .MElseif => 3
  | .MEndif => 4
  | .MEndinput => 5
  | .MFile => 6
  | .MIf => 7
  | .MInclude => 8
  | .MLeaving => 9
  | .MLine => 10
  | .MOptionalNewdecls => 11
  | .MOptionalSemi => 12
  | .MPragma => 13
  | .MRequireNewdecls => 14
  | .MRequireSemi => 15
  | .MTryinclude => 16
  | .MUndef => 17

/-- Numeric code for a `TokenKind`; payload variants live in disjoint bands. -/
def TokenKind.tag : TokenKind → Nat
  | .Identifier => 0
  | .Literal l => 100 + l.tag
  | .Comment c => 110 + c.tag
  | .Operator o => 120 + o.tag
  | .PreprocDir d => 160 + d.tag
  | .Newline => 1
  | .LineContinuation => 2
  | .Bool => 3
  | .Break => 4
  | .Case => 5
  | .Char => 6
  | .Class => 7
  | .Const => 8
  | .Continue => 9
  | .Decl => 10
  | .Default => 11
  | .Defined => 12
  | .Delete => 13
  | .Do => 14
  | .Else => 15
  | .Enum => 16
  | .False => 17
  | .Float => 18
  | .OldFloat => 19
  | .OldString => 20
  | .For => 21
  | .Forward => 22
  | .Functag => 23
  | .Function => 24
  | .If => 25
  | .Int => 26
  | .InvalidFunction => 27
  | .Methodmap => 28
  | .Native => 29
  | .Null => 30
  | .New => 31
  | .Object => 32
  | .Property => 33
  | .Public => 34
  | .Return => 35
  | .Sizeof => 36
  | .Static => 37
  | .Stock => 38
  | .Struct => 39
  | .Switch => 40
  | .This => 41
  | .True => 42
  | .Typedef => 43
  | .Typeset => 44
  | .Union => 45
  | .Using => 46
  | .ViewAs => 47
  | .Void => 48
  | .While => 49
  | .Nullable => 50
  | .Intrinsics => 51
  | .Semicolon => 52
  | .LBrace => 53
  | .RBrace => 54
  | .LParen => 55
  | .RParen => 56
  | .LBracket => 57
  | .RBracket => 58
  | .Comma => 59
  | .Qmark => 60
  | .Colon => 61
  | .Scope => 62
  | .Dot => 63
  | .Underscore => 64
  | .Unknown => 65
  | .Eof => 66

/-- Partial inverse of `TokenKind.tag`. -/
def TokenKind.untag : Nat → TokenKind
  | 0 => .Identifier
  | 100 => .Literal .IntegerLiteral
  | 101 => .Literal .HexLiteral
  | 102 => .Literal .BinaryLiteral
  | 103 => .Literal .OctodecimalLiteral
  | 104 => .Literal .StringLiteral
  | 105 => .Literal .CharLiteral
  | 106 => .Literal .FloatLiteral
  | 110 => .Comment .LineComment
  | 111 => .Comment .BlockComment
  | 120 => .Operator .Ellipses
  | 121 => .Operator .Plus
  | 122 => .Operator .Minus
  | 123 => .Operator .Star
  | 124 => .Operator .Slash
  | 125 => .Operator .Stringize
  | 126 => .Operator .Percent
  | 127 => .Operator .Ampersand
  | 128 => .Operator .Bitor
  | 129 => .Operator .Bitxor
  | 130 => .Operator .Shr
  | 131 => .Operator .Ushr
  | 132 => .Operator .Shl
  | 133 => .Operator .Assign
  | 134 => .Operator .AssignAdd
  | 135 => .Operator .AssignSub
  | 136 => .Operator .AssignMul
  | 137 => .Operator .AssignDiv
  | 138 => .Operator .AssignMod
  | 139 => .Operator .AssignBitAnd
  | 140 => .Operator .AssignBitOr
  | 141 => .Operator .AssignBitXor
  | 142 => .Operator .AssignShr
  | 143 => .Operator .AssignUshl
  | 144 => .Operator .AssignShl
  | 145 => .Operator .Increment
  | 146 => .Operator .Decrement
  | 147 => .Operator .Equals
  | 148 => .Operator .NotEquals
  | 149 => .Operator .Lt
  | 150 => .Operator .Le
  | 151 => .Operator .Gt
  | 152 => .Operator .Ge
  | 153 => .Operator .And
  | 154 => .Operator .Or
  | 155 => .Operator .Not
  | 156 => .Operator .Tilde
  | 160 => .PreprocDir .MDefine
  | 161 => .PreprocDir .MDeprecate
  | 162 => .PreprocDir .MElse
  | 163 => .PreprocDir .MElseif
  | 164 => .PreprocDir .MEndif
  | 165 => .PreprocDir .MEndinput
  | 166 => .PreprocDir .MFile
  | 167 => .PreprocDir .MIf
  | 168 => .PreprocDir .MInclude
  | 169 => .PreprocDir .MLeaving
  | 170 => .PreprocDir .MLine
  | 171 => .PreprocDir .MOptionalNewdecls
  | 172 => .PreprocDir .MOptionalSemi
  | 173 => .PreprocDir .MPragma
  | 174 => .PreprocDir .MRequireNewdecls
  | 175 => .PreprocDir .MRequireSemi
  | 176 => .PreprocDir .MTryinclude
  | 177 => .PreprocDir .MUndef
  | 1 => .Newline
  | 2 => .LineContinuation
  | 3 => .Bool
  | 4 => .Break
  | 5 => .Case
  | 6 => .Char
  | 7 => .Class
  | 8 => .Const
  | 9 => .Continue
  | 10 => .Decl
  | 11 => .Default
  | 12 => .Defined
  | 13 => .Delete
  | 14 => .Do
  | 15 => .Else
  | 16 => .Enum
  | 17 => .False
  | 18 => .Float
  | 19 => .OldFloat
  | 20 => .OldString
  | 21 => .For
  | 22 => .Forward
  | 23 => .Functag
  | 24 => .Function
  | 25 => .If
  | 26 => .Int
  | 27 => .InvalidFunction
  | 28 => .Methodmap
  | 29 => .Native
  | 30 => .Null
  | 31 => .New
  | 32 => .Object
  | 33 => .Property
  | 34 => .Public
  | 35 => .Return
  | 36 => .Sizeof
  | 37 => .Static
  | 38 => .Stock
  | 39 => .Struct
  | 40 => .Switch
  | 41 => .This
  | 42 => .True
  | 43 => .Typedef
  | 44 => .Typeset
  | 45 => .Union
  | 46 => .Using
  | 47 => .ViewAs
  | 48 => .Void
  | 49 => .While
  | 50 => .Nullable
  | 51 => .Intrinsics
  | 52 => .Semicolon
  | 53 => .LBrace
  | 54 => .RBrace
  | 55 => .LParen
  | 56 => .RParen
  | 57 => .LBracket
  | 58 => .RBracket
  | 59 => .Comma
  | 60 => .Qmark
  | 61 => .Colon
  | 62 => .Scope
  | 63 => .Dot
  | 64 => .Underscore
  | 65 => .Unknown
  | _ => .Eof

theorem TokenKind.untag_tag : ∀ k : TokenKind, TokenKind.untag k.tag = k := by
  intro k
  cases k with
  | Literal l => cases l <;> rfl
  | Comment c => cases c <;> rfl
  | Operator o => cases o <;> rfl
  | PreprocDir d => cases d <;> rfl
  | _ => rfl

instance : DecidableEq TokenKind := fun a b =>
  decidable_of_iff (a.tag = b.tag)
    ⟨fun h => by rw [← TokenKind.untag_tag a, ← TokenKind.untag_tag b, h],
     fun h => by rw [h]⟩

/-- `TryFrom<Token> for TokenKind` from `src/token_kind.rs` (the Rust
implementation always returns `Ok`, so the embedding is a total function). -/
def tokenKindOf : Token → TokenKind
  | .Identifier => .Identifier
  | .IntegerLiteral => .Literal .IntegerLiteral
  | .HexLiteral => .Literal .HexLiteral
  | .BinaryLiteral => .Literal .BinaryLiteral
  | .OctodecimalLiteral => .Literal .OctodecimalLiteral
  | .StringLiteral => .Literal .StringLiteral
  | .CharLiteral => .Literal .CharLiteral
  | .FloatLiteral => .Literal .FloatLiteral
  | .Newline => .Newline
  | .LineContinuation => .LineContinuation
  | .LineComment => .Comment .LineComment
  | .BlockComment => .Comment .BlockComment
  | .Bool => .Bool
  | .Break => .Break
  | .Case => .Case
  | .Char => .Char
  | .Class => .Class
  | .Const => .Const
  | .Continue => .Continue
  | .Decl => .Decl
  | .Default => .Default
  | .Defined => .Defined
  | .Delete => .Delete
  | .Do => .Do
  | .Else => .Else
  | .Enum => .Enum
  | .False => .False
  | .Float => .Float
  | .OldFloat => .OldFloat
  | .OldString => .OldString
  | .For => .For
  | .Forward => .Forward
  | .Functag => .Functag
  | .Function => .Function
  | .If => .If
  | .Int => .Int
  | .InvalidFunction => .InvalidFunction
  | .Methodmap => .Methodmap
  | .Native => .Native
  | .Null => .Null
  | .New => .New
  | .Object => .Object
  | .Property => .Property
  | .Public => .Public
  | .Return => .Return
  | .Sizeof => .Sizeof
  | .Static => .Static
  | .Stock => .Stock
  | .Struct => .Struct
  | .Switch => .Switch
  | .This => .This
  | .True => .True
  | .Typedef => .Typedef
  | .Typeset => .Typeset
  | .Union => .Union
  | .Using => .Using
  | .ViewAs => .ViewAs
  | .Void => .Void
  | .While => .While
  | .Nullable => .Nullable
  | .MDefine => .PreprocDir .MDefine
  | .MDeprecate => .PreprocDir .MDeprecate
  | .MElse => .PreprocDir .MElse
  | .MElseif => .PreprocDir .MElseif
  | .MEndif => .PreprocDir .MEndif
  | .MEndinput => .PreprocDir .MEndinput
  | .MFile => .PreprocDir .MFile
  | .MIf => .PreprocDir .MIf
  | .MInclude => .PreprocDir .MInclude
  | .MLeaving => .PreprocDir .MLeaving
  | .MLine => .PreprocDir .MLine
  | .MOptionalNewdecls => .PreprocDir .MOptionalNewdecls
  | .MOptionalSemi => .PreprocDir .MOptionalSemi
  | .MPragma => .PreprocDir .MPragma
  | .MRequireNewdecls => .PreprocDir .MRequireNewdecls
  | .MRequireSemi => .PreprocDir .MRequireSemi
  | .MTryinclude => .PreprocDir .MTryinclude
  | .MUndef => .PreprocDir .MUndef
  | .Intrinsics => .Intrinsics
  | .Ellipses => .Operator .Ellipses
  | .Plus => .Operator .Plus
  | .Minus => .Operator .Minus
  | .Star => .Operator .Star
  | .Slash => .Operator .Slash
  | .Stringize => .Operator .Stringize
  | .Percent => .Operator .Percent
  | .Ampersand => .Operator .Ampersand
  | .Bitor => .Operator .Bitor
  | .Bitxor => .Operator .Bitxor
  | .Shr => .Operator .Shr
  | .Ushr => .Operator .Ushr
  | .Shl => .Operator .Shl
  | .Assign => .Operator .Assign
  | .Semicolon => .Semicolon
  | .LBrace => .LBrace
  | .RBrace => .RBrace
  | .LParen => .LParen
  | .RParen => .RParen
  | .LBracket => .LBracket
  | .RBracket => .RBracket
  | .AssignAdd => .Operator .AssignAdd
  | .AssignSub => .Operator .AssignSub
  | .AssignMul => .Operator .AssignMul
  | .AssignDiv => .Operator .AssignDiv
  | .AssignMod => .Operator .AssignMod
  | .AssignBitAnd => .Operator .AssignBitAnd
  | .AssignBitOr => .Operator .AssignBitOr
  | .AssignBitXor => .Operator .AssignBitXor
  | .AssignShr => .Operator .AssignShr
  | .AssignUshl => .Operator .AssignUshl
  | .AssignShl => .Operator .AssignShl
  | .Increment => .Operator .Increment
  | .Decrement => .Operator .Decrement
  | .Equals => .Operator .Equals
  | .NotEquals => .Operator .NotEquals
  | .Lt => .Operator .Lt
  | .Le => .Operator .Le
  | .Gt => .Operator .Gt
  | .Ge => .Operator .Ge
  | .And => .Operator .And
  | .Or => .Operator .Or
  | .Comma => .Comma
  | .Not => .Operator .Not
  | .Tilde => .Operator .Tilde
  | .Qmark => .Qmark
  | .Colon => .Colon
  | .Scope => .Scope
  | .Dot => .Dot
  | .Underscore => .Underscore
  | .Unknown => .Unknown

/-- `Operator::text` from `src/token_kind.rs`, as a character list. -/
def Operator.text : Operator → List Char
  | .Ellipses => "...".toList
  | .Plus => "+".toList
  | .Minus => "-".toList
  | .Star => "*".toList
  | .Slash => "/".toList
  | .Stringize => "#".toList
  | .Percent => "%".toList
  | .Ampersand => "&".toList
  | .Bitor => "|".toList
  | .Bitxor => "^".toList
  | .Shr => ">>".toList
  | .Ushr => ">>>".toList
  | .Shl => "<<".toList
  | .Assign => "=".toList
  | .AssignAdd => "+=".toList
  | .AssignSub => "-=".toList
  | .AssignMul => "*=".toList
  | .AssignDiv => "/=".toList
  | .AssignMod => "%=".toList
  | .AssignBitAnd => "&=".toList
  | .AssignBitOr => "|=".toList
  | .AssignBitXor => "^=".toList
  | .AssignShr => ">>=".toList
  | .AssignUshl => ">>>=".toList
  | .AssignShl => "<<=".toList
  | .Increment => "++".toList
  | .Decrement => "--".toList
  | .Equals => "==".toList
  | .NotEquals => "!=".toList
  | .Lt => "<".toList
  | .Le => "<=".toList
  | .Gt => ">".toList
  | .Ge => ">=".toList
  | .And => "&&".toList
  | .Or => "||".toList
  | .Not => "!".toList
  | .Tilde => "~".toList

/-- `PreprocDir::text` from `src/token_kind.rs`.  The `MPragma` arm of the
Rust function is `unimplemented!()` (it panics); that arm is modelled as
`none`, every other arm as `some` of its canonical text. -/
def PreprocDir.textOpt : PreprocDir → Option (List Char)
  | .MDefine => some "#define".toList
  | .MDeprecate => some "#deprecate".toList
  | .MElse => some "#else".toList
  | .MElseif => some "#elseif".toList
  | .MEndif => some "#endif".toList
  | .MEndinput => some "#endinput".toList
  | .MFile => some "#file".toList
  | .MIf => some "#if".toList
  | .MInclude => some "#include".toList
  | .MLeaving => some "#leaving".toList
  | .MLine => some "__LINE__".toList
  | .MOptionalNewdecls => some "#optional_newdecls".toList
  | .MOptionalSemi => some "#optional_semicolons".toList
  | .MPragma => none
  | .MRequireNewdecls => some "#require_newdecls".toList
  | .MRequireSemi => some "#require_semicolons".toList
  | .MTryinclude => some "#try_include".toList
  | .MUndef => some "#undef".toList

/-- Models Rust `char::is_numeric` as used in `Literal::to_int`.  On ASCII
text (the only text the lexer feeds to the decoder) `char::is_numeric` holds
exactly for the digits `0`-`9`; the full Unicode numeric table is not
embedded. -/
def charIsNumeric (c : Char) : Bool := c.isDigit

/-- Digit value of a character, models Rust `char::to_digit(radix)` for
radix at most 36 (combined with the `< radix` bound in `parseRadix`). -/
def charToDigit (c : Char) : Option Nat :=
  if c.isDigit then some (c.toNat - '0'.toNat)
  else if 'a' ≤ c ∧ c ≤ 'z' then some (10 + c.toNat - 'a'.toNat)
  else if 'A' ≤ c ∧ c ≤ 'Z' then some (10 + c.toNat - 'A'.toNat)
  else none

/-- Value of a digit list in the given radix (digits already validated). -/
def digitsVal (radix : Nat) : List Char → Nat → Nat
  | [], acc => acc
  | c :: rest, acc => digitsVal radix rest (acc * radix + ((charToDigit c).getD 0))

/-- Models Rust `u32::from_str_radix(s, radix).ok()` (and, at radix 10,
`s.parse::<u32>().ok()`): an optional leading `+`, then at least one digit
valid for the radix; overflow past `u32::MAX` yields `none`. -/
def parseRadix (radix : Nat) (s : List Char) : Option Nat :=
  let digits := match s with
    | '+' :: rest => rest
    | other => other
  if digits = [] then none
  else if digits.all (fun c => ((charToDigit c).map (fun d => decide (d < radix))).getD false) then
    let v := digitsVal radix digits 0
    if v < 2 ^ 32 then some v else none
  else none

/-- Models `text.parse::<f32>().ok()` followed by `tmp.trunc() as u32`, from
the `FloatLiteral` arm of `Literal::to_int`.  The numeric value is computed
exactly over the decimal digits (where `f32` would round to 24 bits of
mantissa); no theorem in this development depends on values where the two
differ.  The saturating behaviour of Rust float-to-int `as` casts is
modelled by clamping into the `u32` range (negative values truncate to 0,
`inf` saturates to `u32::MAX`, `nan` casts to 0). -/
def parseF32Trunc (s : List Char) : Option Nat :=
  let neg : Bool := s.head? = some '-'
  let rest := if s.head? = some '+' ∨ s.head? = some '-' then s.tail else s
  let lower := rest.map Char.toLower
  if lower = "inf".toList ∨ lower = "infinity".toList then
    some (if neg then 0 else 2 ^ 32 - 1)
  else if lower = "nan".toList then some 0
  else
    let intPart := rest.takeWhile Char.isDigit
    let rest2 := rest.dropWhile Char.isDigit
    let hasDot : Bool := rest2.head? = some '.'
    let fracPart := if hasDot then rest2.tail.takeWhile Char.isDigit else []
    let rest3 := if hasDot then rest2.tail.dropWhile Char.isDigit else rest2
    let expOk : Option Int := match rest3 with
      | [] => some 0
      | e :: r =>
        if e = 'e' ∨ e = 'E' then
          let eneg : Bool := r.head? = some '-'
          let edigits := if r.head? = some '+' ∨ r.head? = some '-' then r.tail else r
          if edigits = [] ∨ ¬ edigits.all Char.isDigit then none
          else some (if eneg then -(digitsVal 10 edigits 0 : Int) else (digitsVal 10 edigits 0 : Int))
        else none
    if intPart = [] ∧ fracPart = [] then none
    else match expOk with
      | none => none
      | some e =>
        if neg then some 0
        else
          let mantissa := digitsVal 10 (intPart ++ fracPart) 0
          let exp : Int := e - fracPart.length
          let val : Nat :=
            if 0 ≤ exp then mantissa * 10 ^ exp.toNat
            else mantissa / 10 ^ (-exp).toNat
          some (min val (2 ^ 32 - 1))

/-- `Literal::to_int` from `src/token_kind.rs`.  The `CharLiteral` arm sums
code points with `u32` arithmetic, modelled with an explicit `% 2^32`. -/
def Literal.toInt (lit : Literal) (text : List Char) : Option Nat :=
  match lit with
  | .IntegerLiteral =>
    parseRadix 10 (text.filter charIsNumeric)
  | .BinaryLiteral =>
    parseRadix 2 ((text.dropWhile (· ≠ 'x')).drop 1 |>.filter charIsNumeric)
  | .OctodecimalLiteral =>
    parseRadix 8 ((text.dropWhile (· ≠ 'x')).drop 1 |>.filter charIsNumeric)
  | .HexLiteral =>
    parseRadix 16 ((text.dropWhile (· ≠ 'x')).drop 1 |>.filter charIsNumeric)
  | .FloatLiteral =>
    parseF32Trunc (text.filter (· ≠ '_'))
  | .CharLiteral =>
    some ((text.foldl (fun out c => out + c.toNat) 0) % 2 ^ 32)
  | .StringLiteral => none

/-- `lsp_types::Position`: zero-based line and character offset. -/
structure Position where
  line : Nat
  character : Nat
  deriving DecidableEq, Repr, Inhabited

/-- `lsp_types::Range`: half-open range between two positions.  The Rust
field `end` is called `stop` here (`end` is a reserved word in Lean). -/
structure Range where
  start : Position
  stop : Position
  deriving DecidableEq, Repr, Inhabited

/-- `Delta` from `src/lexer.rs`: difference between the start of the token
it is attached to and the end of the previous token, in lines and columns
(`i32` fields, modelled as `Int`). -/
structure Delta where
  line : Int
  col : Int
  deriving DecidableEq, Repr, Inhabited

/-- `Symbol` from `src/lexer.rs`: a token kind with optional owned text, a
range and a delta. -/
structure Symbol where
  token_kind : TokenKind
  text : Option (List Char)
  range : Range
  delta : Delta
  deriving DecidableEq, Repr, Inhabited

/-- `Symbol::new` from `src/lexer.rs`. -/
def Symbol.new (token_kind : TokenKind) (text : Option (List Char))
    (range : Range) (delta : Delta) : Symbol :=
  ⟨token_kind, text, range, delta⟩

/-- The text `Symbol::text` resolves for a given kind and stored text
(`src/lexer.rs` lines 81-166).  `none` models a panic: the `unwrap()` of a
missing stored text, or the `unimplemented!()` arm reached through
`PreprocDir::text`.  The fixed-form arms return the canonical strings of the
Rust match verbatim. -/
def symTextOpt (kind : TokenKind) (stored : Option (List Char)) : Option (List Char) :=
  match kind with
  | .Operator op => some op.text
  | .PreprocDir dir =>
    if dir = .MPragma ∨ dir = .MInclude ∨ dir = .MTryinclude then stored
    else dir.textOpt
  | .Comment _ => stored
  | .Literal _ => stored
  | .Identifier => stored
  | .Newline => some "\n".toList
  | .LineContinuation => some "\\\n".toList
  | .Bool => some "bool".toList
  | .Break => some "break".toList
  | .Case => some "case".toList
  | .Char => some "char".toList
  | .Class => some "class".toList
  | .Const => some "const".toList
  | .Continue => some "continue".toList
  | .Decl => some "decl".toList
  | .Default => some "default".toList
  | .Defined => some "defined".toList
  | .Delete => some "delete".toList
  | .Do => some "do".toList
  | .Else => some "else".toList
  | .Enum => some "enum".toList
  | .False => some "false".toList
  | .Float => some "float".toList
  | .OldFloat => some "Float".toList
  | .OldString => some "String".toList
  | .For => some "for".toList
  | .Forward => some "forward".toList
  | .Functag => some "functag".toList
  | .Function => some "function".toList
  | .If => some "if".toList
  | .Int => some "int".toList
  | .InvalidFunction => some "INVALID_FUNCTION".toList
  | .Methodmap => some "methodmap".toList
  | .Native => some "native".toList
  | .Null => some "null".toList
  | .New => some "new".toList
  | .Object => some "object".toList
  | .Property => some "property".toList
  | .Public => some "public".toList
  | .Return => some "return".toList
  | .Sizeof => some "sizeof".toList
  | .Static => some "static".toList
  | .Stock => some "stock".toList
  | .Struct => some "struct".toList
  | .Switch => some "switch".toList
  | .This => some "this".toList
  | .True => some "true".toList
  | .Typedef => some "typedef".toList
  | .Typeset => some "typeset".toList
  | .Union => some "union".toList
  | .Using => some "using".toList
  | .ViewAs => some "view_as".toList
  | .Void => some "void".toList
  | .While => some "while".toList
  | .Nullable => some "__nullable__".toList
  | .Intrinsics => some "__intrinsics__".toList
  | .Semicolon => some ";".toList
  | .LBrace => some "\x7b".toList
  | .RBrace => some "\x7d".toList
  | .LParen => some "(".toList
  | .RParen => some ")".toList
  | .LBracket => some "[".toList
  | .RBracket => some "]".toList
  | .Comma => some ",".toList
  | .Qmark => some "?".toList
  | .Colon => some ":".toList
  | .Scope => some "::".toList
  | .Dot => some ".".toList
  | .Unknown => some "".toList
  | .Underscore => some "_".toList
  | .Eof => some "\x00".toList

/-- `Symbol::text`, totalised with `[]` standing for the (never reached on
lexer-produced symbols, see claim C10) panic case. -/
def Symbol.symText (sym : Symbol) : List Char :=
  (symTextOpt sym.token_kind sym.text).getD []

/-- `Symbol::to_int` from `src/lexer.rs`. -/
def Symbol.toInt (sym : Symbol) : Option Nat :=
  match sym.token_kind with
  | .Literal lit => lit.toInt sym.symText
  | _ => none

/-- Models `str::replace("\\\n", "")`: removes the non-overlapping
occurrences of backslash-newline, scanning left to right. -/
def stripBsNl : List Char → List Char
  | '\\' :: '\n' :: rest => stripBsNl rest
  | c :: rest => c :: stripBsNl rest
  | [] => []

/-- Models `str::replace("\\\r\n", "")`: removes the non-overlapping
occurrences of backslash-CR-LF, scanning left to right. -/
def stripBsCrNl : List Char → List Char
  | '\\' :: '\r' :: '\n' :: rest => stripBsCrNl rest
  | c :: rest => c :: stripBsCrNl rest
  | [] => []

/-- Models `str::replace('\n', "")`: removes every newline character. -/
def stripNlChar : List Char → List Char
  | '\n' :: rest => stripNlChar rest
  | c :: rest => c :: stripNlChar rest
  | [] => []

/-- Models `str::replace("\r\n", "")`: removes the non-overlapping
occurrences of CR-LF, scanning left to right. -/
def stripCrNl : List Char → List Char
  | '\r' :: '\n' :: rest => stripCrNl rest
  | c :: rest => c :: stripCrNl rest
  | [] => []

/-- `Symbol::inline_text` from `src/lexer.rs` lines 176-202. -/
def Symbol.inlineText (sym : Symbol) : List Char :=
  let text := sym.symText
  match sym.token_kind with
  | .Literal lit =>
    if lit = .StringLiteral ∨ lit = .CharLiteral then
      stripBsCrNl (stripBsNl text)
    else text
  | .Comment com =>
    if com = .BlockComment then stripCrNl (stripNlChar text) else text
  | .PreprocDir dir =>
    if dir = .MPragma ∨ dir = .MInclude ∨ dir = .MTryinclude then
      stripBsCrNl (stripBsNl text)
    else text
  | _ => text

/-- One raw token as produced by the matcher: the category together with its
matched span `[start, stop)` (`Lexer::span()` in `logos`). -/
structure RawTok where
  tok : Token
  start : Nat
  stop : Nat
  deriving DecidableEq, Repr, Inhabited

/-- The matched slice `self.lexer.slice()` for a span over `src`. -/
def sliceOf (src : List Char) (a b : Nat) : List Char :=
  (src.drop a).take (b - a)

/-- Scanner state of `SourcepawnLexer` (`src/lexer.rs` lines 216-224), minus
the wrapped raw lexer, which is supplied as an explicit token list. -/
structure ScanSt where
  lineNumber : Nat
  lineSpanStart : Nat
  inPre : Bool
  prevRange : Option Range
  eof : Bool
  deriving DecidableEq, Repr, Inhabited

/-- `SourcepawnLexer::new`: initial scanner state. -/
def initSt : ScanSt := ⟨0, 0, false, none, false⟩

/-- `SourcepawnLexer::in_preprocessor` from `src/lexer.rs` lines 256-258. -/
def ScanSt.inPreprocessor (s : ScanSt) : Bool := s.inPre && !s.eof

/-- `SourcepawnLexer::delta` from `src/lexer.rs` lines 260-272: gap between
the previous symbol's end and the new range's start (`i32` subtraction on
`u32` positions, modelled as `Int` subtraction of `Nat` coordinates), or the
default delta for the first symbol. -/
def deltaOf (prev : Option Range) (range : Range) : Delta :=
  match prev with
  | some p =>
    ⟨(range.start.line : Int) - (p.stop.line : Int),
     (range.start.character : Int) - (p.stop.character : Int)⟩
  | none => ⟨0, 0⟩

/-- Tokens whose matched slice is captured as symbol text
(`src/lexer.rs` lines 310-325). -/
def isTextTok : Token → Bool
  | .Identifier | .IntegerLiteral | .HexLiteral | .BinaryLiteral
  | .OctodecimalLiteral | .StringLiteral | .CharLiteral | .FloatLiteral
  | .BlockComment | .LineComment | .MPragma | .MInclude | .MTryinclude => true
  | _ => false

/-- The five tokens of the multi-line arm of the flag-update match
(`src/lexer.rs` line 327-332). -/
def isMultiArm : Token → Bool
  | .StringLiteral | .BlockComment | .MPragma | .MInclude | .MTryinclude => true
  | _ => false

/-- The three special directives that consume their own payload
(`src/lexer.rs` line 333). -/
def isSpecialDir : Token → Bool
  | .MPragma | .MInclude | .MTryinclude => true
  | _ => false

/-- The fourteen plain directive keywords that set the in-preprocessor flag
(`src/lexer.rs` lines 350-363). -/
def isPlainDir : Token → Bool
  | .MDefine | .MDeprecate | .MIf | .MElse | .MElseif | .MEndinput | .MFile
  | .MOptionalNewdecls | .MOptionalSemi | .MRequireNewdecls | .MRequireSemi
  | .MUndef | .MEndif | .MLeaving => true
  | _ => false

/-- Match start indices of the regex `\n` (`RE1.find_iter`) in a text,
offsets starting at `i`. -/
def nlStarts (i : Nat) : List Char → List Nat
  | '\n' :: rest => i :: nlStarts (i + 1) rest
  | _ :: rest => nlStarts (i + 1) rest
  | [] => []

/-- Match end indices of the regex `\\\r?\n` (`RE2.find_iter`) in a text:
left-to-right, non-overlapping, offsets starting at `i`. -/
def contEnds (i : Nat) : List Char → List Nat
  | '\\' :: '\n' :: rest => (i + 2) :: contEnds (i + 2) rest
  | '\\' :: '\r' :: '\n' :: rest => (i + 3) :: contEnds (i + 3) rest
  | _ :: rest => contEnds (i + 1) rest
  | [] => []

/-- The EOF step of `SourcepawnLexer::next` (`src/lexer.rs` lines 286-305):
emit the zero-length `Eof` symbol at the end-of-input position and mark the
scanner finished. -/
def mkEof (src : List Char) (s : ScanSt) : Symbol × ScanSt :=
  let pos : Position := ⟨s.lineNumber, src.length - s.lineSpanStart⟩
  let range : Range := ⟨pos, pos⟩
  (⟨.Eof, none, range, deltaOf s.prevRange range⟩,
   { s with eof := true, prevRange := some range })

/-- One non-EOF step of `SourcepawnLexer::next` (`src/lexer.rs` lines
306-389) on raw token `r`: capture text, update the in-preprocessor flag and
the line bookkeeping, build the range and delta. -/
def stepTok (src : List Char) (r : RawTok) (s : ScanSt) : Symbol × ScanSt :=
  let startLine := s.lineNumber
  let startCol := r.start - s.lineSpanStart
  let text : Option (List Char) :=
    if isTextTok r.tok then some (sliceOf src r.start r.stop) else none
  let s1 :=
    if isMultiArm r.tok then
      let inP := if isSpecialDir r.tok then true else s.inPre
      let t := sliceOf src r.start r.stop
      let lineBreaks := nlStarts 0 t
      let lineConts := contEnds 0 t
      match lineConts.getLast? with
      | some e =>
        { s with inPre := inP, lineNumber := s.lineNumber + lineBreaks.length,
                 lineSpanStart := r.start + e }
      | none =>
        match lineBreaks.getLast? with
        | some b =>
          { s with inPre := false, lineNumber := s.lineNumber + lineBreaks.length,
                   lineSpanStart := r.start + b }
        | none => { s with inPre := inP }
    else if isPlainDir r.tok then { s with inPre := true }
    else if r.tok = .LineContinuation then
      { s with lineNumber := s.lineNumber + 1, lineSpanStart := r.stop }
    else if r.tok = .Newline then
      { s with inPre := false, lineNumber := s.lineNumber + 1, lineSpanStart := r.stop }
    else s
  let range : Range :=
    ⟨⟨startLine, startCol⟩, ⟨s1.lineNumber, r.stop - s1.lineSpanStart⟩⟩
  (⟨tokenKindOf r.tok, text, range, deltaOf s.prevRange range⟩,
   { s1 with prevRange := some range })

/-- `<SourcepawnLexer as Iterator>::next`: the scanner paired with the
remaining raw token stream.  Returns the emitted symbol, the value
`in_preprocessor()` observes right after the pull, and the successor state;
`none` once the stream is exhausted and `Eof` was already produced. -/
def lexNext (src : List Char) : List RawTok × ScanSt →
    Option ((Symbol × Bool) × (List RawTok × ScanSt))
  | ([], s) =>
    if s.eof then none
    else
      let (sym, s') := mkEof src s
      some ((sym, s'.inPreprocessor), ([], s'))
  | (r :: rs, s) =>
    let (sym, s') := stepTok src r s
    some ((sym, s'.inPreprocessor), (rs, s'))

/-- All pulls of the scanner over a raw token stream: the emitted symbols,
each paired with the `in_preprocessor()` value observed right after its
pull, together with the final scanner state. -/
def lexList (src : List Char) : List RawTok → ScanSt → List (Symbol × Bool) × ScanSt
  | [], s =>
    if s.eof then ([], s)
    else
      let (sym, s') := mkEof src s
      ([(sym, s'.inPreprocessor)], s')
  | r :: rs, s =>
    let (sym, s') := stepTok src r s
    let (out, fin) := lexList src rs s'
    ((sym, s'.inPreprocessor) :: out, fin)

/-- Scanning an input from the initial state (`SourcepawnLexer::new` plus
iterating to exhaustion). -/
def lexAll (src : List Char) (toks : List RawTok) : List (Symbol × Bool) × ScanSt :=
  lexList src toks initSt

/-- The symbols of a scan, without the observed flags. -/
def lexSyms (src : List Char) (toks : List RawTok) : List Symbol :=
  (lexAll src toks).1.map Prod.fst

/-- The observed `in_preprocessor()` values of a scan, one per pull. -/
def lexObs (src : List Char) (toks : List RawTok) : List Bool :=
  (lexAll src toks).1.map Prod.snd

/-- Boolean prefix test on character lists. -/
def isPre : List Char → List Char → Bool
  | [], _ => true
  | _ :: _, [] => false
  | p :: ps, c :: cs => p = c && isPre ps cs

/-- Boolean substring (contiguous infix) test on character lists. -/
def hasSub (pat : List Char) : List Char → Bool
  | [] => isPre pat []
  | c :: rest => isPre pat (c :: rest) || hasSub pat rest

/-- A run of `n` spaces, used to re-insert gap bytes from a recorded delta. -/
def spaces (n : Nat) : List Char := List.replicate n ' '

/-- Reconstruction of the source exactly as claim C2 words it: for every
produced symbol, re-insert the gap indicated by its recorded delta, then its
`text()` — including the final `Eof` symbol's text. -/
def reconstructClaimed : List Symbol → List Char
  | [] => []
  | sym :: rest => spaces sym.delta.col.toNat ++ sym.symText ++ reconstructClaimed rest

/-- Reconstruction of the source with the `Eof` symbol contributing only its
gap, not its text (the amended form of claim C2). -/
def reconstructSyms : List Symbol → List Char
  | [] => []
  | sym :: rest =>
    spaces sym.delta.col.toNat ++
      (if sym.token_kind = .Eof then [] else sym.symText) ++ reconstructSyms rest

/-- The text the scanner will let `text()` resolve for raw token `r`:
its captured slice for content-bearing categories, the canonical string
otherwise. -/
def emittedText (src : List Char) (r : RawTok) : List Char :=
  (symTextOpt (tokenKindOf r.tok)
    (if isTextTok r.tok then some (sliceOf src r.start r.stop) else none)).getD []

/-- Modelled from the spec: the contract of the missing raw pattern matcher
(`src/token.rs`, spec section 4.1/4.3), relative to a starting offset `pos`
(the end of the previously matched span; `0` initially).  The matcher
produces maximal matches left to right, so spans are ordered and in bounds;
whatever it skips between matches is whitespace trivia — restricted here to
plain spaces, matching the claim's delta-based gap re-insertion — and every
matched slice spells exactly the text the symbol will resolve (which rules
out `Unknown` tokens, whose resolved text is empty, and CR-LF line endings,
whose `Newline` slice differs from the canonical `"\n"`). -/
def OkFrom (src : List Char) : Nat → List RawTok → Prop
  | pos, [] =>
    pos ≤ src.length ∧ ∀ i, i < src.length → pos ≤ i → src.getD i ' ' = ' '
  | pos, r :: rs =>
    pos ≤ r.start ∧ r.start ≤ r.stop ∧ r.stop ≤ src.length ∧
    (∀ i, i < r.start → pos ≤ i → src.getD i ' ' = ' ') ∧
    emittedText src r = sliceOf src r.start r.stop ∧
    OkFrom src r.stop rs

/-- Net effect of one raw token on the in-preprocessor flag, read off the
kind of token and its matched slice alone: `some true` forces the flag on,
`some false` forces it off, `none` leaves it unchanged.  This is the
declarative transition function of the directive state machine. -/
def flagEvent (src : List Char) (r : RawTok) : Option Bool :=
  let t := sliceOf src r.start r.stop
  if isMultiArm r.tok then
    if contEnds 0 t ≠ [] then
      if isSpecialDir r.tok then some true else none
    else if nlStarts 0 t ≠ [] then some false
    else if isSpecialDir r.tok then some true else none
  else if isPlainDir r.tok then some true
  else if r.tok = .Newline then some false
  else none

/-- The flag value determined by the most recent forcing event of a stream
prefix, `false` when no event has occurred yet. -/
def lastFlag (src : List Char) (toks : List RawTok) : Bool :=
  ((toks.filterMap (flagEvent src)).getLast?).getD false

/-- Content-bearing kinds per claim C10: Identifier, the seven literal
kinds, the two comment kinds, and the three payload-carrying directives. -/
def contentKind : TokenKind → Bool
  | .Identifier | .Literal _ | .Comment _ => true
  | .PreprocDir d => d = .MPragma ∨ d = .MInclude ∨ d = .MTryinclude
  | _ => false

set_option maxRecDepth 8192 in
theorem tokenKindOf_ne_eof : ∀ t : Token, tokenKindOf t ≠ TokenKind.Eof := by decide

theorem stepTok_eof (src : List Char) (r : RawTok) (s : ScanSt) :
    ((stepTok src r s).2).eof = s.eof := by
  unfold stepTok
  dsimp only
  repeat' split
  all_goals rfl

theorem stepTok_kind (src : List Char) (r : RawTok) (s : ScanSt) :
    ((stepTok src r s).1).token_kind = tokenKindOf r.tok := by
  unfold stepTok
  dsimp only

theorem lexList_kinds (src : List Char) : ∀ (toks : List RawTok) (s : ScanSt), s.eof = false →
    ((lexList src toks s).1).map (fun p => p.1.token_kind) =
      toks.map (fun r => tokenKindOf r.tok) ++ [TokenKind.Eof] := by
  intro toks
  induction toks with
  | nil =>
    intro s hs
    simp [lexList, hs, mkEof]
  | cons r rs ih =>
    intro s hs
    have h2 : ((stepTok src r s).2).eof = false := by rw [stepTok_eof]; exact hs
    simp [lexList, ih _ h2, stepTok_kind]

theorem lexList_last (src : List Char) : ∀ (toks : List RawTok) (s : ScanSt), s.eof = false →
    ∃ sEnd : ScanSt, sEnd.eof = false ∧
      (lexList src toks s).2 = (mkEof src sEnd).2 ∧
      (lexList src toks s).1.getLast? =
        some ((mkEof src sEnd).1, ((mkEof src sEnd).2).inPreprocessor) := by
  intro toks
  induction toks with
  | nil =>
    intro s hs
    refine ⟨s, hs, ?_, ?_⟩ <;> simp [lexList, hs]
  | cons r rs ih =>
    intro s hs
    have h2 : ((stepTok src r s).2).eof = false := by rw [stepTok_eof]; exact hs
    obtain ⟨sEnd, he, hfin, hlast⟩ := ih _ h2
    refine ⟨sEnd, he, ?_, ?_⟩
    · simpa [lexList] using hfin
    · have hne : (lexList src rs (stepTok src r s).2).1 ≠ [] := by
        intro h0
        rw [h0] at hlast
        simp at hlast
      simp only [lexList]
      rcases h3 : (lexList src rs (stepTok src r s).2).1 with _ | ⟨b, bs⟩
      · exact absurd h3 hne
      · rw [h3] at hlast
        simpa using hlast

/-- Claim C1: for every input and raw token stream, the produced symbol
sequence contains exactly one `Eof`-kind symbol, that symbol is last (the
next pull after it returns nothing), and its range is zero-length at the
end-of-input position tracked by the final scanner state. -/
theorem claim_C1 (src : List Char) (toks : List RawTok) :
    ((lexSyms src toks).map Symbol.token_kind).count TokenKind.Eof = 1 ∧
    (∃ sym, (lexSyms src toks).getLast? = some sym ∧ sym.token_kind = TokenKind.Eof ∧
      sym.range.start = sym.range.stop ∧
      sym.range.stop = ⟨(lexAll src toks).2.lineNumber,
        src.length - (lexAll src toks).2.lineSpanStart⟩) ∧
    lexNext src ([], (lexAll src toks).2) = none := by
  have hkinds := lexList_kinds src toks initSt rfl
  obtain ⟨sEnd, he, hfin, hlast⟩ := lexList_last src toks initSt rfl
  refine ⟨?_, ?_, ?_⟩
  · rw [lexSyms, lexAll, List.map_map]
    have : (Symbol.token_kind ∘ Prod.fst) = (fun p : Symbol × Bool => p.1.token_kind) := rfl
    rw [this, hkinds, List.count_append]
    have h0 : (toks.map (fun r => tokenKindOf r.tok)).count TokenKind.Eof = 0 := by
      rw [List.count_eq_zero]
      intro hmem
      obtain ⟨r, _, hr⟩ := List.mem_map.mp hmem
      exact tokenKindOf_ne_eof r.tok hr
    simp [h0]
  · refine ⟨(mkEof src sEnd).1, ?_, rfl, rfl, ?_⟩
    · rw [lexSyms, lexAll, List.getLast?_map, hlast]
      rfl
    · rw [lexAll, hfin]
      rfl
  · rw [lexAll, hfin]
    simp [lexNext, mkEof]

theorem stepTok_prevRange (src : List Char) (r : RawTok) (s : ScanSt) :
    ((stepTok src r s).2).prevRange = some ((stepTok src r s).1).range := rfl

theorem stepTok_delta (src : List Char) (r : RawTok) (s : ScanSt) :
    ((stepTok src r s).1).delta = deltaOf s.prevRange ((stepTok src r s).1).range := rfl

theorem mkEof_prevRange (src : List Char) (s : ScanSt) :
    ((mkEof src s).2).prevRange = some ((mkEof src s).1).range := rfl

theorem mkEof_delta (src : List Char) (s : ScanSt) :
    ((mkEof src s).1).delta = deltaOf s.prevRange ((mkEof src s).1).range := rfl

def deltaRel (a b : Symbol) : Prop :=
  b.delta = ⟨(b.range.start.line : Int) - (a.range.stop.line : Int),
             (b.range.start.character : Int) - (a.range.stop.character : Int)⟩

theorem lexList_chain (src : List Char) : ∀ (toks : List RawTok) (s : ScanSt) (a : Symbol),
    s.eof = false → s.prevRange = some a.range →
    List.Chain' deltaRel (a :: (lexList src toks s).1.map Prod.fst) := by
  intro toks
  induction toks with
  | nil =>
    intro s a hs hp
    have hunf : (lexList src [] s).1 = [((mkEof src s).1, ((mkEof src s).2).inPreprocessor)] := by
      simp [lexList, hs]
    rw [hunf]
    refine List.chain'_cons.mpr ⟨?_, by simp⟩
    show deltaRel a (mkEof src s).1
    unfold deltaRel
    rw [mkEof_delta, hp]
    rfl
  | cons r rs ih =>
    intro s a hs hp
    have h2 : ((stepTok src r s).2).eof = false := by rw [stepTok_eof]; exact hs
    simp only [lexList, List.map_cons]
    refine List.chain'_cons.mpr ⟨?_, ?_⟩
    · show deltaRel a (stepTok src r s).1
      unfold deltaRel
      rw [stepTok_delta, hp]
      rfl
    · exact ih _ _ h2 (stepTok_prevRange src r s)

/-- Claim C7: every produced symbol's delta is the component-wise gap from
the previous emitted symbol's end position to its own start position (line
difference, column difference as signed integers), and the first symbol of
every scan has delta `(0, 0)`. -/
theorem claim_C7 (src : List Char) (toks : List RawTok) :
    ((lexSyms src toks).map Symbol.delta).head? = some ⟨0, 0⟩ ∧
    List.Chain' deltaRel (lexSyms src toks) := by
  rcases toks with _ | ⟨r, rs⟩
  · constructor
    · rfl
    · simp [lexSyms, lexAll, lexList, initSt]
  · have h2 : ((stepTok src r initSt).2).eof = false := stepTok_eof src r initSt
    constructor
    · simp only [lexSyms, lexAll, lexList, List.map_cons, List.head?_cons]
      rw [stepTok_delta]
      rfl
    · simp only [lexSyms, lexAll, lexList, List.map_cons]
      exact lexList_chain src rs _ _ h2 (stepTok_prevRange src r initSt)

theorem stepTok_inPre (src : List Char) (r : RawTok) (s : ScanSt) :
    ((stepTok src r s).2).inPre = (flagEvent src r).getD s.inPre := by
  by_cases h1 : isMultiArm r.tok
  · cases h4 : (contEnds 0 (sliceOf src r.start r.stop)).getLast? with
    | some e =>
      have hne : contEnds 0 (sliceOf src r.start r.stop) ≠ [] := by
        intro h0; rw [h0] at h4; simp at h4
      by_cases h5 : isSpecialDir r.tok <;>
        simp [stepTok, flagEvent, h1, h4, hne, h5]
    | none =>
      have he : contEnds 0 (sliceOf src r.start r.stop) = [] := by
        simpa using h4
      cases h6 : (nlStarts 0 (sliceOf src r.start r.stop)).getLast? with
      | some b =>
        have hne2 : nlStarts 0 (sliceOf src r.start r.stop) ≠ [] := by
          intro h0; rw [h0] at h6; simp at h6
        simp [stepTok, flagEvent, h1, h4, he, h6, hne2]
      | none =>
        have he2 : nlStarts 0 (sliceOf src r.start r.stop) = [] := by
          simpa using h6
        by_cases h5 : isSpecialDir r.tok <;>
          simp [stepTok, flagEvent, h1, h4, he, h6, he2, h5]
  · by_cases h7 : isPlainDir r.tok
    · simp [stepTok, flagEvent, h1, h7]
    · by_cases h8 : r.tok = .LineContinuation
      · simp [stepTok, flagEvent, h8, show isMultiArm Token.LineContinuation = false from rfl,
              show isPlainDir Token.LineContinuation = false from rfl]
      · by_cases h9 : r.tok = .Newline
        · simp [stepTok, flagEvent, h9, show isMultiArm Token.Newline = false from rfl,
                show isPlainDir Token.Newline = false from rfl]
        · simp [stepTok, flagEvent, h1, h7, h8, h9]

theorem getLastD_cons {α : Type} (b : α) (m : List α) (d : α) :
    ((b :: m).getLast?).getD d = (m.getLast?).getD b := by
  cases m with
  | nil => simp
  | cons c cs =>
    rw [List.getLast?_cons_cons]
    have : ∃ x, (c :: cs).getLast? = some x := by
      cases h : (c :: cs).getLast? with
      | none => simp at h
      | some x => exact ⟨x, rfl⟩
    obtain ⟨x, hx⟩ := this
    simp [hx]

theorem filterMap_getLastD_cons {α β : Type} (f : α → Option β) (a : α) (l : List α) (d : β) :
    (((a :: l).filterMap f).getLast?).getD d = ((l.filterMap f).getLast?).getD ((f a).getD d) := by
  cases h : f a with
  | none => simp [List.filterMap_cons, h]
  | some b => simp [List.filterMap_cons, h, getLastD_cons]

theorem lexList_obs (src : List Char) : ∀ (toks : List RawTok) (s : ScanSt), s.eof = false →
    (lexList src toks s).1.map Prod.snd =
      (List.range toks.length).map
        (fun i => (((toks.take (i + 1)).filterMap (flagEvent src)).getLast?).getD s.inPre)
        ++ [false] := by
  intro toks
  induction toks with
  | nil =>
    intro s hs
    simp [lexList, hs, mkEof, ScanSt.inPreprocessor]
  | cons r rs ih =>
    intro s hs
    have h2 : ((stepTok src r s).2).eof = false := by rw [stepTok_eof]; exact hs
    have hobs : ((stepTok src r s).2).inPreprocessor = (flagEvent src r).getD s.inPre := by
      unfold ScanSt.inPreprocessor
      rw [h2, stepTok_inPre]
      simp
    simp only [lexList, List.map_cons]
    rw [ih _ h2, hobs, List.length_cons, List.range_succ_eq_map, List.map_cons, List.map_map]
    congr 1
    · show (flagEvent src r).getD s.inPre =
        ((((r :: rs).take 1).filterMap (flagEvent src)).getLast?).getD s.inPre
      rw [List.take_succ_cons]
      simp only [List.take_zero]
      cases h : flagEvent src r with
      | none => simp [List.filterMap_cons, h]
      | some b => simp [List.filterMap_cons, h]
    · congr 1
      refine List.map_congr_left ?_
      intro i _
      show (((rs.take (i + 1)).filterMap (flagEvent src)).getLast?).getD ((stepTok src r s).2).inPre
        = ((((r :: rs).take (i + 1 + 1)).filterMap (flagEvent src)).getLast?).getD s.inPre
      rw [stepTok_inPre, List.take_succ_cons, filterMap_getLastD_cons]

theorem flagEvent_true_cases (src : List Char) (r : RawTok)
    (h : flagEvent src r = some true) :
    isPlainDir r.tok = true ∨ isSpecialDir r.tok = true := by
  by_cases hm : isMultiArm r.tok
  · by_cases hc : contEnds 0 (sliceOf src r.start r.stop) = []
    · by_cases hn : nlStarts 0 (sliceOf src r.start r.stop) = []
      · by_cases hs : isSpecialDir r.tok
        · exact Or.inr hs
        · simp [flagEvent, hm, hc, hn, hs] at h
      · simp [flagEvent, hm, hc, hn] at h
    · by_cases hs : isSpecialDir r.tok
      · exact Or.inr hs
      · simp [flagEvent, hm, hc, hs] at h
  · by_cases hp : isPlainDir r.tok
    · exact Or.inl hp
    · by_cases hnw : r.tok = Token.Newline
      · simp [flagEvent, hnw, show isMultiArm Token.Newline = false from rfl,
              show isPlainDir Token.Newline = false from rfl] at h
      · simp [flagEvent, hm, hp, hnw] at h

theorem flagEvent_false_cases (src : List Char) (r : RawTok)
    (h : flagEvent src r = some false) :
    r.tok = Token.Newline ∨
      (isMultiArm r.tok = true ∧ contEnds 0 (sliceOf src r.start r.stop) = [] ∧
        nlStarts 0 (sliceOf src r.start r.stop) ≠ []) := by
  by_cases hm : isMultiArm r.tok
  · by_cases hc : contEnds 0 (sliceOf src r.start r.stop) = []
    · by_cases hn : nlStarts 0 (sliceOf src r.start r.stop) = []
      · by_cases hs : isSpecialDir r.tok <;> simp [flagEvent, hm, hc, hn, hs] at h
      · exact Or.inr ⟨hm, hc, hn⟩
    · by_cases hs : isSpecialDir r.tok <;> simp [flagEvent, hm, hc, hs] at h
  · by_cases hp : isPlainDir r.tok
    · simp [flagEvent, hm, hp] at h
    · by_cases hnw : r.tok = Token.Newline
      · exact Or.inl hnw
      · simp [flagEvent, hm, hp, hnw] at h

/-- Claim C3 (amended): the `in_preprocessor()` value observed right after
each pull equals the flag forced by the most recent flag event in the stream
consumed so far (`false` when none): directive-start tokens force it on, an
unescaped `Newline` — or a multi-line-arm token whose slice holds a line
break and no continuation — forces it off.  In particular the pull of the
terminating `Newline` of a directive already observes `false` (not `true`,
as the claim states), and the `Eof` pull always observes `false`. -/
theorem claim_C3 (src : List Char) (toks : List RawTok) :
    lexObs src toks =
      (List.range toks.length).map (fun i => lastFlag src (toks.take (i + 1))) ++ [false] := by
  rw [lexObs, lexAll, lexList_obs src toks initSt rfl]
  rfl

/-- Claim C4 (amended): the inside-directive flag obeys the step relation
`flagEvent`: it becomes true only on a directive-start token; once true it
becomes false only on an unescaped `Newline` or on a
`StringLiteral`/`BlockComment`/`#pragma`/`#include`/`#tryinclude` token whose
matched text contains a line break and no line continuation (so, contrary to
the claim, a multi-line string literal or block comment inside a directive
line does clear the flag); `LineContinuation` tokens never change it. -/
theorem claim_C4 :
    (∀ (src : List Char) (r : RawTok) (s : ScanSt),
      ((stepTok src r s).2).inPre = (flagEvent src r).getD s.inPre) ∧
    (∀ (src : List Char) (r : RawTok) (s : ScanSt),
      s.inPre = false → ((stepTok src r s).2).inPre = true →
        isPlainDir r.tok = true ∨ isSpecialDir r.tok = true) ∧
    (∀ (src : List Char) (r : RawTok) (s : ScanSt),
      s.inPre = true → ((stepTok src r s).2).inPre = false →
        r.tok = Token.Newline ∨
          (isMultiArm r.tok = true ∧ contEnds 0 (sliceOf src r.start r.stop) = [] ∧
            nlStarts 0 (sliceOf src r.start r.stop) ≠ [])) ∧
    (∀ (src : List Char) (r : RawTok) (s : ScanSt),
      r.tok = Token.LineContinuation → ((stepTok src r s).2).inPre = s.inPre) := by
  refine ⟨stepTok_inPre, ?_, ?_, ?_⟩
  · intro src r s h0 h1
    rw [stepTok_inPre, h0] at h1
    refine flagEvent_true_cases src r ?_
    cases hv : flagEvent src r with
    | none => rw [hv] at h1; simp at h1
    | some b => rw [hv] at h1; simp at h1; rw [h1]
  · intro src r s h0 h1
    rw [stepTok_inPre, h0] at h1
    refine flagEvent_false_cases src r ?_
    cases hv : flagEvent src r with
    | none => rw [hv] at h1; simp at h1
    | some b => rw [hv] at h1; simp at h1; rw [h1]
  · intro src r s h
    rw [stepTok_inPre]
    simp [flagEvent, h, show isMultiArm Token.LineContinuation = false from rfl,
          show isPlainDir Token.LineContinuation = false from rfl]

/-- Witness for claim C4: instantiates the only-if direction at `#define`. -/
theorem claim_C4_witness :
    isPlainDir Token.MDefine = true ∨ isSpecialDir Token.MDefine = true :=
  claim_C4.2.1 "#define FOO".toList ⟨Token.MDefine, 0, 7⟩ initSt rfl (by decide)


/-- Counterexample to claim C3 as stated: scanning `"#define FOO 1\n"`, the
pull of the terminating `Newline` (the fourth pull) observes
`in_preprocessor() = false`, where the claim requires `true` up to and
including that `Newline`. -/
theorem claim_C3_counterexample :
    (lexSyms "#define FOO 1\n".toList
        [⟨.MDefine, 0, 7⟩, ⟨.Identifier, 8, 11⟩, ⟨.IntegerLiteral, 12, 13⟩, ⟨.Newline, 13, 14⟩]).map
        Symbol.token_kind =
      [.PreprocDir .MDefine, .Identifier, .Literal .IntegerLiteral, .Newline, .Eof] ∧
    lexObs "#define FOO 1\n".toList
        [⟨.MDefine, 0, 7⟩, ⟨.Identifier, 8, 11⟩, ⟨.IntegerLiteral, 12, 13⟩, ⟨.Newline, 13, 14⟩] =
      [true, true, true, false, false] := by decide

/-- Counterexample to claim C4 as stated: from a state with the flag on, a
`BlockComment` token spanning a line break (`"/*\n*/"`) — neither a
directive-start nor a `Newline` nor a special-directive payload — turns the
flag off, where the claim requires it unchanged. -/
theorem claim_C4_counterexample :
    (⟨0, 0, true, none, false⟩ : ScanSt).inPre = true ∧
    isMultiArm Token.BlockComment = true ∧ isSpecialDir Token.BlockComment = false ∧
    isPlainDir Token.BlockComment = false ∧
    (stepTok "/*\n*/".toList ⟨.BlockComment, 0, 5⟩ ⟨0, 0, true, none, false⟩).2.inPre = false := by
  decide

theorem parseRadix_lt (radix : Nat) (s : List Char) (n : Nat) :
    parseRadix radix s = some n → n < 2 ^ 32 := by
  intro h
  unfold parseRadix at h
  dsimp only at h
  split_ifs at h with h1 h2 h3
  · injection h with h4
    omega

theorem parseF32Trunc_lt (s : List Char) (n : Nat) :
    parseF32Trunc s = some n → n < 2 ^ 32 := by
  intro h
  unfold parseF32Trunc at h
  dsimp only at h
  repeat' split at h
  all_goals first
    | (injection h; done)
    | (injection h with h4; try rw [min_def] at h4;
       first
        | (split at h4 <;> omega)
        | omega)

/-- Claim C9: literal decoding is total and never fails the scan — the
decoder returns an optional `u32`: a `StringLiteral` always decodes to
`none`, every successful decode fits in a `u32`, and text with no digit at
all (hence unparsable in base 10) decodes to `none` rather than an error. -/
theorem claim_C9 :
    (∀ t : List Char, Literal.toInt .StringLiteral t = none) ∧
    (∀ (lit : Literal) (t : List Char) (n : Nat), Literal.toInt lit t = some n → n < 2 ^ 32) ∧
    (∀ t : List Char, (∀ c ∈ t, charIsNumeric c = false) →
      Literal.toInt .IntegerLiteral t = none) := by
  refine ⟨fun t => rfl, ?_, ?_⟩
  · intro lit t n h
    cases lit with
    | IntegerLiteral => exact parseRadix_lt _ _ _ h
    | BinaryLiteral => exact parseRadix_lt _ _ _ h
    | OctodecimalLiteral => exact parseRadix_lt _ _ _ h
    | HexLiteral => exact parseRadix_lt _ _ _ h
    | FloatLiteral => exact parseF32Trunc_lt _ _ h
    | CharLiteral =>
      injection h with h4
      rw [← h4]
      exact Nat.mod_lt _ (by norm_num)
    | StringLiteral => exact absurd h (by simp [Literal.toInt])
  · intro t h
    have hf : t.filter charIsNumeric = [] := by
      rw [List.filter_eq_nil_iff]
      intro a ha
      rw [h a ha]
      simp
    show parseRadix 10 (t.filter charIsNumeric) = none
    rw [hf]
    rfl

/-- Witness for claim C9 at concrete literals. -/
theorem claim_C9_witness :
    Literal.toInt .StringLiteral "abc".toList = none ∧
    175 < 2 ^ 32 ∧
    Literal.toInt .IntegerLiteral "xyz".toList = none :=
  ⟨claim_C9.1 "abc".toList,
   claim_C9.2.1 .CharLiteral "'a'".toList 175 (by decide),
   claim_C9.2.2 "xyz".toList (by decide)⟩

set_option maxRecDepth 8192 in
theorem contentKind_eq_isTextTok : ∀ t : Token, contentKind (tokenKindOf t) = isTextTok t := by
  decide

theorem symTextOpt_some_isSome : ∀ (k : TokenKind) (x : List Char),
    (symTextOpt k (some x)).isSome = true := by
  intro k x
  cases k with
  | PreprocDir d => cases d <;> rfl
  | _ => rfl

set_option maxRecDepth 8192 in
theorem symTextOpt_none_isSome : ∀ t : Token, isTextTok t = false →
    (symTextOpt (tokenKindOf t) none).isSome = true := by decide

theorem stepTok_text (src : List Char) (r : RawTok) (s : ScanSt) :
    ((stepTok src r s).1).text =
      if isTextTok r.tok then some (sliceOf src r.start r.stop) else none := rfl

theorem lexList_textOk (src : List Char) : ∀ (toks : List RawTok) (s : ScanSt), s.eof = false →
    ∀ p ∈ (lexList src toks s).1,
      (p.1.text.isSome = contentKind p.1.token_kind) ∧
      (symTextOpt p.1.token_kind p.1.text).isSome = true := by
  intro toks
  induction toks with
  | nil =>
    intro s hs p hp
    simp [lexList, hs] at hp
    rw [hp]
    exact ⟨rfl, rfl⟩
  | cons r rs ih =>
    intro s hs p hp
    have h2 : ((stepTok src r s).2).eof = false := by rw [stepTok_eof]; exact hs
    simp only [lexList, List.mem_cons] at hp
    rcases hp with hp | hp
    · rw [hp]
      dsimp only
      rw [stepTok_text, stepTok_kind]
      by_cases ht : isTextTok r.tok
      · rw [if_pos ht]
        exact ⟨by rw [contentKind_eq_isTextTok, ht]; rfl, symTextOpt_some_isSome _ _⟩
      · rw [if_neg ht]
        refine ⟨by rw [contentKind_eq_isTextTok]; simp [Bool.of_not_eq_true ht], ?_⟩
        exact symTextOpt_none_isSome r.tok (Bool.of_not_eq_true ht)
    · exact ih _ h2 p hp

/-- Claim C10: every symbol produced by the scanner stores an owned text
slice exactly when its kind is content-bearing (Identifier, the seven
literal kinds, the two comment kinds, or the `#pragma`/`#include`/
`#tryinclude` directives) and stores none otherwise; and on every produced
symbol the text resolution of `Symbol::text` succeeds — neither the
`unwrap()` of the stored text nor the `unimplemented!()` canonical-text
branch for `#pragma` is ever hit (`symTextOpt` is `some`). -/
theorem claim_C10 (src : List Char) (toks : List RawTok) :
    ∀ sym ∈ lexSyms src toks,
      (sym.text.isSome = contentKind sym.token_kind) ∧
      (symTextOpt sym.token_kind sym.text).isSome = true := by
  intro sym hsym
  rw [lexSyms, lexAll] at hsym
  obtain ⟨p, hp, hps⟩ := List.mem_map.mp hsym
  rw [← hps]
  exact lexList_textOk src toks initSt rfl p hp

/-- Witness for claim C10 on the scan of `"int"`. -/
theorem claim_C10_witness :
    ((((lexSyms "int".toList [⟨Token.Int, 0, 3⟩]).headI).text).isSome =
      contentKind (((lexSyms "int".toList [⟨Token.Int, 0, 3⟩]).headI).token_kind)) ∧
    (symTextOpt (((lexSyms "int".toList [⟨Token.Int, 0, 3⟩]).headI).token_kind)
      (((lexSyms "int".toList [⟨Token.Int, 0, 3⟩]).headI).text)).isSome = true :=
  claim_C10 "int".toList [⟨Token.Int, 0, 3⟩] _ (by decide)

/-- Claim C5 (amended): scanning always completes — every raw token becomes
a symbol of the corresponding kind, with `Eof` last, even for streams
containing `Unknown` tokens — but the `text()` of an `Unknown`-kind symbol
is the empty string: the offending source text is not carried (contrary to
the claim), only its range identifies it. -/
theorem claim_C5 (src : List Char) (toks : List RawTok) :
    (lexSyms src toks).map Symbol.token_kind =
      toks.map (fun r => tokenKindOf r.tok) ++ [TokenKind.Eof] ∧
    ∀ sym ∈ lexSyms src toks, sym.token_kind = TokenKind.Unknown → sym.symText = [] := by
  constructor
  · rw [lexSyms, lexAll, List.map_map]
    have : (Symbol.token_kind ∘ Prod.fst) = (fun p : Symbol × Bool => p.1.token_kind) := rfl
    rw [this]
    exact lexList_kinds src toks initSt rfl
  · intro sym _ hk
    unfold Symbol.symText
    rw [hk]
    rfl

/-- Witness for claim C5 on the scan of the unmatchable input `"$"`. -/
theorem claim_C5_witness :
    (lexSyms "$".toList [⟨Token.Unknown, 0, 1⟩]).map Symbol.token_kind =
      [TokenKind.Unknown, TokenKind.Eof] ∧
    Symbol.symText ((lexSyms "$".toList [⟨Token.Unknown, 0, 1⟩]).headI) = [] := by
  have h := claim_C5 "$".toList [⟨Token.Unknown, 0, 1⟩]
  exact ⟨by simpa using h.1, h.2 _ (by decide) (by decide)⟩

/-- Counterexample to claim C5 as stated: scanning the unmatchable input
`"$"`, the `Unknown` symbol's `text()` is the empty string, not the
offending matched slice `"$"`. -/
theorem claim_C5_counterexample :
    (lexSyms "$".toList [⟨Token.Unknown, 0, 1⟩]).map (fun s => (s.token_kind, s.symText)) =
      [(TokenKind.Unknown, []), (TokenKind.Eof, "\x00".toList)] ∧
    sliceOf "$".toList 0 1 = "$".toList ∧
    "$".toList ≠ ([] : List Char) := by decide

/-- Claim C6: evaluation of `Literal::to_int` at the claim's two inputs.
The integer half holds: `"10_000_000"` decodes to `10000000`.  The hex half
fails on the code: `"0x1F"` decodes to `Some(1)` — the loop keeps only
`char::is_numeric` characters after the `x`, silently dropping the hex
digits `A`-`F` — whereas the claim (and any usable hex decoder) expects 31. -/
theorem claim_C6 :
    Literal.toInt .IntegerLiteral "10_000_000".toList = some 10000000 ∧
    Literal.toInt .HexLiteral "0x1F".toList = some 1 ∧
    Literal.toInt .HexLiteral "0x1F".toList ≠ some 31 := by decide

/-- Counterexample to claim C2 as stated: already on the single-identifier
input `"a"`, concatenating every produced symbol's `text()` (with
delta-indicated gaps re-inserted) appends the `Eof` symbol's `text()`,
which is `"\x00"`, so the reconstruction is `"a\x00"`, not `"a"`. -/
theorem claim_C2_counterexample :
    reconstructClaimed (lexSyms "a".toList [⟨Token.Identifier, 0, 1⟩]) = "a\x00".toList ∧
    "a\x00".toList ≠ "a".toList := by decide

theorem stripNlChar_cons_ne (c : Char) (rest : List Char) (h : c ≠ '\n') :
    stripNlChar (c :: rest) = c :: stripNlChar rest := by
  conv_lhs => rw [stripNlChar.eq_def]
  split
  · rename_i heq; injection heq with h1 h2; exact absurd h1 h
  · rename_i heq; injection heq with h1 h2; rw [h1, h2]
  · rename_i heq; exact absurd heq (by simp)

theorem nl_not_mem_stripNlChar (l : List Char) : '\n' ∉ stripNlChar l := by
  induction l using stripNlChar.induct with
  | case1 rest ih => simpa [stripNlChar] using ih
  | case2 c rest hne ih =>
    rw [stripNlChar_cons_ne c rest (fun h => hne h)]
    intro hmem
    rcases List.mem_cons.mp hmem with h | h
    · exact hne h.symm
    · exact ih h
  | case3 => simp [stripNlChar]

theorem mem_stripCrNl (c : Char) (l : List Char) (h : c ∈ stripCrNl l) : c ∈ l := by
  induction l using stripCrNl.induct with
  | case1 rest ih =>
    rw [show stripCrNl ('\r' :: '\n' :: rest) = stripCrNl rest from rfl] at h
    exact List.mem_cons_of_mem _ (List.mem_cons_of_mem _ (ih h))
  | case2 d rest hne ih =>
    rw [show stripCrNl (d :: rest) = d :: stripCrNl rest from by
      conv_lhs => rw [stripCrNl.eq_def]
      split
      · rename_i heq; injection heq with h1 h2
        exact (hne _ h1 h2).elim
      · rename_i heq; injection heq with h1 h2; rw [h1, h2]
      · rename_i heq; exact absurd heq (by simp)] at h
    rcases List.mem_cons.mp h with h | h
    · exact h ▸ List.mem_cons_self _ _
    · exact List.mem_cons_of_mem _ (ih h)
  | case3 => simp [stripCrNl] at h

theorem stripBsNl_cons (c : Char) (rest : List Char)
    (h : ∀ rest', c = '\\' → rest = '\n' :: rest' → False) :
    stripBsNl (c :: rest) = c :: stripBsNl rest := by
  conv_lhs => rw [stripBsNl.eq_def]
  split
  · rename_i heq; injection heq with h1 h2; exact (h _ h1 h2).elim
  · rename_i heq; injection heq with h1 h2; rw [h1, h2]
  · rename_i heq; exact absurd heq (by simp)

theorem mem_stripBsNl (c : Char) (l : List Char) (h : c ∈ stripBsNl l) : c ∈ l := by
  induction l using stripBsNl.induct with
  | case1 rest ih =>
    rw [show stripBsNl ('\\' :: '\n' :: rest) = stripBsNl rest from rfl] at h
    exact List.mem_cons_of_mem _ (List.mem_cons_of_mem _ (ih h))
  | case2 d rest hne ih =>
    rw [stripBsNl_cons d rest hne] at h
    rcases List.mem_cons.mp h with h | h
    · exact h ▸ List.mem_cons_self _ _
    · exact List.mem_cons_of_mem _ (ih h)
  | case3 => simp [stripBsNl] at h

theorem stripBsCrNl_id (l : List Char) (h : '\r' ∉ l) : stripBsCrNl l = l := by
  induction l using stripBsCrNl.induct with
  | case1 rest ih => exact absurd (by simp) h
  | case2 c rest hne ih =>
    rw [show stripBsCrNl (c :: rest) = c :: stripBsCrNl rest from by
      conv_lhs => rw [stripBsCrNl.eq_def]
      split
      · rename_i heq; injection heq with h1 h2; exact (hne _ h1 h2).elim
      · rename_i heq; injection heq with h1 h2; rw [h1, h2]
      · rename_i heq; exact absurd heq (by simp)]
    rw [ih (fun hm => h (List.mem_cons_of_mem _ hm))]
  | case3 => rfl

theorem isPre_mem : ∀ (pat l : List Char), isPre pat l = true → ∀ c ∈ pat, c ∈ l := by
  intro pat
  induction pat with
  | nil => intro l _ c hc; simp at hc
  | cons p ps ih =>
    intro l h c hc
    cases l with
    | nil => simp [isPre] at h
    | cons d ds =>
      rw [isPre] at h
      simp only [Bool.and_eq_true, decide_eq_true_eq] at h
      rcases List.mem_cons.mp hc with hc | hc
      · rw [hc, h.1]
        exact List.mem_cons_self _ _
      · exact List.mem_cons_of_mem _ (ih ds h.2 c hc)

theorem hasSub_mem : ∀ (l pat : List Char), hasSub pat l = true → ∀ c ∈ pat, c ∈ l := by
  intro l
  induction l with
  | nil =>
    intro pat h c hc
    rw [hasSub] at h
    cases pat with
    | nil => simp at hc
    | cons p ps => simp [isPre] at h
  | cons d ds ih =>
    intro pat h c hc
    rw [hasSub] at h
    rcases Bool.or_eq_true_iff.mp h with h | h
    · exact isPre_mem pat _ h c hc
    · exact List.mem_cons_of_mem _ (ih pat h c hc)

theorem hasSub_cons_false (pat : List Char) (c : Char) (l : List Char)
    (h : hasSub pat (c :: l) = false) : hasSub pat l = false := by
  rw [hasSub] at h
  exact (Bool.or_eq_false_iff.mp h).2

theorem stripBsNl_no_bsnl (l : List Char) (h : hasSub ['\\', '\\'] l = false) :
    hasSub ['\\', '\n'] (stripBsNl l) = false := by
  induction l using stripBsNl.induct with
  | case1 rest ih =>
    rw [show stripBsNl ('\\' :: '\n' :: rest) = stripBsNl rest from rfl]
    exact ih (hasSub_cons_false _ _ _ (hasSub_cons_false _ _ _ h))
  | case2 c rest hne ih =>
    rw [stripBsNl_cons c rest hne]
    have h2 := hasSub_cons_false _ _ _ h
    rw [hasSub, ih h2]
    simp only [Bool.or_false]
    by_cases hc : c = '\\'
    · subst hc
      cases rest with
      | nil => decide
      | cons d rest2 =>
        have hd : d ≠ '\\' := by
          intro hdd
          subst hdd
          rw [hasSub] at h
          simp [isPre] at h
        have hd2 : d ≠ '\n' := fun hdd => hne rest2 rfl (by rw [hdd])
        rw [stripBsNl_cons d rest2 (fun r' hdd _ => hd hdd)]
        simp [isPre, Ne.symm hd2]
    · simp [isPre, Ne.symm hc]
  | case3 => decide

theorem hasSub_bscrnl_false (l : List Char) (h : '\r' ∉ l) :
    hasSub ['\\', '\r', '\n'] l = false := by
  cases hv : hasSub ['\\', '\r', '\n'] l
  · rfl
  · exact absurd (hasSub_mem _ _ hv '\r' (by decide)) h

/-- Claim C8 (amended): a block comment's `inline_text()` never contains a
newline character (unconditionally).  For String/Char literals and the three
directive payloads the guarantee is conditional: when the raw text contains
no carriage return and no doubled backslash, `inline_text()` contains no
backslash-newline and no backslash-CR-LF.  Unconditionally the claim is
false: the two sequential `replace` calls can splice a new occurrence out of
adjacent removals (see the counterexample). -/
theorem claim_C8 :
    (∀ sym : Symbol, sym.token_kind = .Comment .BlockComment →
      '\n' ∉ sym.inlineText) ∧
    (∀ sym : Symbol,
      (sym.token_kind = .Literal .StringLiteral ∨ sym.token_kind = .Literal .CharLiteral ∨
       sym.token_kind = .PreprocDir .MPragma ∨ sym.token_kind = .PreprocDir .MInclude ∨
       sym.token_kind = .PreprocDir .MTryinclude) →
      hasSub ['\\', '\\'] sym.symText = false → '\r' ∉ sym.symText →
      hasSub ['\\', '\n'] sym.inlineText = false ∧
      hasSub ['\\', '\r', '\n'] sym.inlineText = false) := by
  constructor
  · intro sym hk hmem
    have h1 : sym.inlineText = stripCrNl (stripNlChar sym.symText) := by
      unfold Symbol.inlineText
      rw [hk]
      simp
    rw [h1] at hmem
    exact nl_not_mem_stripNlChar _ (mem_stripCrNl _ _ hmem)
  · intro sym hk hbs hcr
    have h1 : sym.inlineText = stripBsCrNl (stripBsNl sym.symText) := by
      unfold Symbol.inlineText
      rcases hk with hk | hk | hk | hk | hk <;> rw [hk] <;> simp
    have hcr2 : '\r' ∉ stripBsNl sym.symText := fun hm => hcr (mem_stripBsNl _ _ hm)
    rw [h1, stripBsCrNl_id _ hcr2]
    exact ⟨stripBsNl_no_bsnl _ hbs, hasSub_bscrnl_false _ hcr2⟩

/-- Witness for claim C8 on a concrete block comment and string literal. -/
theorem claim_C8_witness :
    '\n' ∉ Symbol.inlineText
      (Symbol.new (.Comment .BlockComment) (some "/*a\nb*/".toList) ⟨⟨0, 0⟩, ⟨1, 3⟩⟩ ⟨0, 0⟩) ∧
    hasSub ['\\', '\n'] (Symbol.inlineText
      (Symbol.new (.Literal .StringLiteral) (some "\"a\\\nb\"".toList) ⟨⟨0, 0⟩, ⟨1, 2⟩⟩ ⟨0, 0⟩)) =
      false :=
  ⟨claim_C8.1 _ rfl,
   (claim_C8.2 _ (Or.inl rfl) (by decide) (by decide)).1⟩


/-- Counterexample to claim C8 as stated: a `StringLiteral` symbol whose
text is backslash-backslash-LF-LF.  Removing the (only) backslash-newline
occurrence splices the outer backslash and newline together, so
`inline_text()` is exactly a backslash-newline sequence. -/
theorem claim_C8_counterexample :
    hasSub "\\\n".toList
      (Symbol.inlineText
        (Symbol.new (.Literal .StringLiteral) (some "\\\\\n\n".toList) ⟨⟨0, 0⟩, ⟨0, 0⟩⟩ ⟨0, 0⟩)) =
      true ∧
    Symbol.inlineText
      (Symbol.new (.Literal .StringLiteral) (some "\\\\\n\n".toList) ⟨⟨0, 0⟩, ⟨0, 0⟩⟩ ⟨0, 0⟩) =
      "\\\n".toList := by decide

theorem contEnds_cons (i : Nat) (c : Char) (rest : List Char)
    (h1 : ∀ rest', c = '\\' → rest = '\n' :: rest' → False)
    (h2 : ∀ rest', c = '\\' → rest = '\r' :: '\n' :: rest' → False) :
    contEnds i (c :: rest) = contEnds (i + 1) rest := by
  conv_lhs => rw [contEnds.eq_def]
  split
  · rename_i heq; injection heq with hh1 hh2; exact (h1 _ hh1 hh2).elim
  · rename_i heq; injection heq with hh1 hh2; exact (h2 _ hh1 hh2).elim
  · rename_i heq; injection heq with hh1 hh2; rw [hh2]
  · rename_i heq; exact absurd heq (by simp)

theorem nlStarts_cons (i : Nat) (c : Char) (rest : List Char) (h1 : c ≠ '\n') :
    nlStarts i (c :: rest) = nlStarts (i + 1) rest := by
  conv_lhs => rw [nlStarts.eq_def]
  split
  · rename_i heq; injection heq with hh1 hh2; exact absurd hh1 h1
  · rename_i heq; injection heq with hh1 hh2; rw [hh2]
  · rename_i heq; exact absurd heq (by simp)

theorem contEnds_le : ∀ (i : Nat) (l : List Char), ∀ e ∈ contEnds i l, e ≤ i + l.length := by
  intro i l
  induction i, l using contEnds.induct with
  | case1 i rest ih =>
    intro e he
    rcases List.mem_cons.mp he with he | he
    · simp [he]
    · have := ih e he
      simp only [List.length_cons] at this ⊢
      omega
  | case2 i rest ih =>
    intro e he
    rcases List.mem_cons.mp he with he | he
    · simp [he]
    · have := ih e he
      simp only [List.length_cons] at this ⊢
      omega
  | case3 i c rest h1 h2 ih =>
    intro e he
    rw [contEnds_cons i c rest h1 h2] at he
    have := ih e he
    simp only [List.length_cons] at this ⊢
    omega
  | case4 i => intro e he; simp [contEnds] at he

theorem nlStarts_lt : ∀ (i : Nat) (l : List Char), ∀ b ∈ nlStarts i l, b < i + l.length := by
  intro i l
  induction i, l using nlStarts.induct with
  | case1 i rest ih =>
    intro b hb
    rcases List.mem_cons.mp hb with hb | hb
    · simp [hb]
    · have := ih b hb
      simp only [List.length_cons] at this ⊢
      omega
  | case2 i c rest h1 ih =>
    intro b hb
    rw [nlStarts_cons i c rest (fun h => h1 h)] at hb
    have := ih b hb
    simp only [List.length_cons] at this ⊢
    omega
  | case3 i => intro b hb; simp [nlStarts] at hb

theorem mem_of_getLast?_eq {α : Type} {l : List α} {x : α} (h : l.getLast? = some x) : x ∈ l := by
  obtain ⟨hne, hx⟩ := List.mem_getLast?_eq_getLast (show x ∈ l.getLast? from h)
  rw [hx]
  exact List.getLast_mem hne

theorem sliceOf_length_le (src : List Char) (a b : Nat) :
    (sliceOf src a b).length ≤ b - a := by
  unfold sliceOf
  simp [List.length_take, List.length_drop]

theorem stepTok_lss_le (src : List Char) (r : RawTok) (s : ScanSt)
    (h0 : s.lineSpanStart ≤ r.start) (h1 : r.start ≤ r.stop) :
    ((stepTok src r s).2).lineSpanStart ≤ r.stop := by
  have hlen := sliceOf_length_le src r.start r.stop
  by_cases hm : isMultiArm r.tok
  · cases h4 : (contEnds 0 (sliceOf src r.start r.stop)).getLast? with
    | some e =>
      have := contEnds_le 0 _ e (mem_of_getLast?_eq h4)
      simp only [Nat.zero_add] at this
      simp [stepTok, hm, h4]
      omega
    | none =>
      cases h6 : (nlStarts 0 (sliceOf src r.start r.stop)).getLast? with
      | some b =>
        have := nlStarts_lt 0 _ b (mem_of_getLast?_eq h6)
        simp only [Nat.zero_add] at this
        simp [stepTok, hm, h4, h6]
        omega
      | none =>
        simp [stepTok, hm, h4, h6]
        omega
  · by_cases h7 : isPlainDir r.tok
    · simp [stepTok, hm, h7]
      omega
    · by_cases h8 : r.tok = .LineContinuation
      · simp [stepTok, h8, show isMultiArm Token.LineContinuation = false from rfl,
              show isPlainDir Token.LineContinuation = false from rfl]
      · by_cases h9 : r.tok = .Newline
        · simp [stepTok, h9, show isMultiArm Token.Newline = false from rfl,
                show isPlainDir Token.Newline = false from rfl]
        · simp [stepTok, hm, h7, h8, h9]
          omega

theorem drop_eq_slice_append (src : List Char) (a b : Nat) (h : a ≤ b) :
    src.drop a = sliceOf src a b ++ src.drop b := by
  unfold sliceOf
  conv_lhs => rw [← List.take_append_drop (b - a) (src.drop a)]
  rw [List.drop_drop, Nat.add_sub_cancel' h]

theorem sliceOf_all_spaces (src : List Char) (a b : Nat) (hb : b ≤ src.length)
    (hsp : ∀ i, a ≤ i → i < b → src.getD i ' ' = ' ') :
    sliceOf src a b = spaces (b - a) := by
  unfold sliceOf spaces
  apply List.ext_getElem
  · simp [List.length_take, List.length_drop]
    omega
  · intro i hi1 hi2
    rw [List.getElem_replicate]
    rw [List.getElem_take, List.getElem_drop]
    have hlt : a + i < b := by
      simp [List.length_take, List.length_drop] at hi1
      omega
    have hlen : a + i < src.length := by omega
    have := hsp (a + i) (by omega) hlt
    rwa [List.getD_eq_getElem src ' ' hlen] at this

theorem stepTok_range_start (src : List Char) (r : RawTok) (s : ScanSt) :
    ((stepTok src r s).1).range.start = ⟨s.lineNumber, r.start - s.lineSpanStart⟩ := rfl

theorem stepTok_range_stop_char (src : List Char) (r : RawTok) (s : ScanSt) :
    ((stepTok src r s).1).range.stop.character =
      r.stop - ((stepTok src r s).2).lineSpanStart := rfl

theorem stepTok_symText (src : List Char) (r : RawTok) (s : ScanSt) :
    ((stepTok src r s).1).symText = emittedText src r := rfl

theorem recon_from (src : List Char) : ∀ (toks : List RawTok) (s : ScanSt) (pos : Nat)
    (pr : Range), s.eof = false → s.prevRange = some pr → s.lineSpanStart ≤ pos →
    pr.stop.character = pos - s.lineSpanStart → OkFrom src pos toks →
    reconstructSyms ((lexList src toks s).1.map Prod.fst) = src.drop pos := by
  intro toks
  induction toks with
  | nil =>
    intro s pos pr hs hprev hlss hchar hok
    simp only [OkFrom] at hok
    obtain ⟨hpos, hsp⟩ := hok
    have hout : (lexList src [] s).1.map Prod.fst = [(mkEof src s).1] := by
      simp [lexList, hs]
    rw [hout]
    simp only [reconstructSyms, List.append_nil]
    rw [if_pos (show ((mkEof src s).1).token_kind = TokenKind.Eof from rfl), List.append_nil]
    have hcol : ((mkEof src s).1).delta.col =
        ((src.length - pos : Nat) : Int) := by
      rw [mkEof_delta, hprev]
      show ((src.length - s.lineSpanStart : Nat) : Int) - (pr.stop.character : Int) = _
      rw [hchar]
      have h1 : s.lineSpanStart ≤ src.length := le_trans hlss hpos
      push_cast [Nat.cast_sub h1, Nat.cast_sub hlss, Nat.cast_sub hpos]
      ring
    rw [hcol]
    show spaces ((src.length - pos : Nat) : Int).toNat = src.drop pos
    rw [Int.toNat_natCast]
    rw [drop_eq_slice_append src pos src.length hpos, List.drop_length, List.append_nil]
    rw [sliceOf_all_spaces src pos src.length le_rfl (fun i h1 h2 => hsp i h2 h1)]
  | cons r rs ih =>
    intro s pos pr hs hprev hlss hchar hok
    simp only [OkFrom] at hok
    obtain ⟨hpos, hab, hbl, hgap, htext, hrest⟩ := hok
    have h2 : ((stepTok src r s).2).eof = false := by rw [stepTok_eof]; exact hs
    simp only [lexList, List.map_cons]
    rw [reconstructSyms]
    have hkind : ((stepTok src r s).1).token_kind ≠ TokenKind.Eof := by
      rw [stepTok_kind]; exact tokenKindOf_ne_eof r.tok
    rw [if_neg hkind]
    have hcol : ((stepTok src r s).1).delta.col = ((r.start - pos : Nat) : Int) := by
      rw [stepTok_delta, hprev]
      show ((stepTok src r s).1.range.start.character : Int) - (pr.stop.character : Int) = _
      rw [stepTok_range_start, hchar]
      show ((r.start - s.lineSpanStart : Nat) : Int) - ((pos - s.lineSpanStart : Nat) : Int) = _
      have h1 : s.lineSpanStart ≤ r.start := le_trans hlss hpos
      push_cast [Nat.cast_sub h1, Nat.cast_sub hlss, Nat.cast_sub hpos]
      ring
    rw [hcol, stepTok_symText, htext]
    show spaces ((r.start - pos : Nat) : Int).toNat ++ _ ++ _ = _
    rw [Int.toNat_natCast]
    have hrec : reconstructSyms ((lexList src rs (stepTok src r s).2).1.map Prod.fst) =
        src.drop r.stop := by
      refine ih _ r.stop ((stepTok src r s).1).range h2 (stepTok_prevRange src r s) ?_
        (stepTok_range_stop_char src r s) hrest
      exact stepTok_lss_le src r s (le_trans hlss hpos) hab
    rw [hrec]
    rw [← sliceOf_all_spaces src pos r.start (le_trans hab hbl) (fun i h1 h2 => hgap i h2 h1)]
    rw [drop_eq_slice_append src pos r.start hpos, drop_eq_slice_append src r.start r.stop hab]
    rw [List.append_assoc]

instance instDecidableOkFrom (src : List Char) :
    (pos : Nat) → (toks : List RawTok) → Decidable (OkFrom src pos toks)
  | pos, [] => by unfold OkFrom; infer_instance
  | pos, r :: rs =>
    have : Decidable (OkFrom src r.stop rs) := instDecidableOkFrom src r.stop rs
    by unfold OkFrom; infer_instance

/-- Claim C2 (amended): for a raw token stream satisfying the matcher
contract `OkFrom` (ordered in-bounds maximal spans starting at offset 0,
space-only gaps, and every matched slice spelling exactly the text the
symbol resolves — which excludes `Unknown` tokens and CR-LF `Newline`
matches) the round-trip holds in the form: concatenating, per symbol, a run
of `delta.col` spaces followed by its `text()` — with the `Eof` symbol
contributing only its delta gap, not its `"\x00"` text — reproduces the
input exactly. -/
theorem claim_C2 (src : List Char) (toks : List RawTok)
    (h1 : OkFrom src 0 toks)
    (h2 : match toks with | [] => src = [] | r :: _ => r.start = 0) :
    reconstructSyms (lexSyms src toks) = src := by
  cases toks with
  | nil =>
    have hsrc : src = [] := h2
    subst hsrc
    decide
  | cons r rs =>
    have hr0 : r.start = 0 := h2
    simp only [OkFrom] at h1
    obtain ⟨hpos, hab, hbl, hgap, htext, hrest⟩ := h1
    simp only [lexSyms, lexAll, lexList, List.map_cons]
    rw [reconstructSyms]
    have hkind : ((stepTok src r initSt).1).token_kind ≠ TokenKind.Eof := by
      rw [stepTok_kind]; exact tokenKindOf_ne_eof r.tok
    rw [if_neg hkind]
    have hd : ((stepTok src r initSt).1).delta = ⟨0, 0⟩ := by
      rw [stepTok_delta]
      rfl
    rw [hd]
    have h2' : ((stepTok src r initSt).2).eof = false := stepTok_eof _ _ _
    have hrec := recon_from src rs (stepTok src r initSt).2 r.stop
      ((stepTok src r initSt).1).range h2' (stepTok_prevRange _ _ _)
      (stepTok_lss_le src r initSt (Nat.zero_le _) hab)
      (stepTok_range_stop_char _ _ _) hrest
    rw [hrec, stepTok_symText, htext, hr0]
    show spaces ((0 : Int)).toNat ++ _ ++ _ = _
    simp only [Int.toNat_zero, spaces, List.replicate, List.nil_append]
    conv_rhs => rw [← List.drop_zero src, drop_eq_slice_append src 0 r.stop (Nat.zero_le _)]

/-- Witness for claim C2 on the input `"a b"`. -/
theorem claim_C2_witness :
    OkFrom "a b".toList 0 [⟨Token.Identifier, 0, 1⟩, ⟨Token.Identifier, 2, 3⟩] ∧
    reconstructSyms (lexSyms "a b".toList
      [⟨Token.Identifier, 0, 1⟩, ⟨Token.Identifier, 2, 3⟩]) = "a b".toList := by
  refine ⟨?_, claim_C2 _ _ ?_ rfl⟩ <;> decide

end SpLexer
